import Mathlib

/-!
# LiteX demo application: line reader, tokenizer and command dispatcher

A shallow embedding of `litex/soc/software/demo/main.c`.

* C `char` values are natural numbers (byte values); a C string is the run of
  non-NUL bytes starting at a pointer.
* The `static` variables of `readstr` (`s[64]` and `ptr`) form the record
  `Reader`; `ptr` is a C `int` and is kept as an `Int`.
* Everything a function does to the outside world (one call writing to
  `stdout`, one CSR access, one `busy_wait`, ...) is one `Event`; a function
  returns the list of events it performed, in program order.
-/

namespace Litex

/-! ## Bytes and C strings -/

/-- The bytes of a string literal (all literals of the program are ASCII). -/
def B (t : String) : List Nat := t.data.map Char.toNat

/-- The C string stored at the start of `mem`: the bytes before the first NUL. -/
def cstr (mem : List Nat) : List Nat := mem.takeWhile (fun b => b ≠ 0)

/-- The C string stored at offset `p` of `mem`. -/
def cstrAt (mem : List Nat) (p : Nat) : List Nat := cstr (mem.drop p)

/-- libc `strlen`, on the bytes from the pointer on (the end of the modelled
memory reads as a terminator). -/
def strlen : List Nat → Nat
  | [] => 0
  | b :: bs => if b = 0 then 0 else strlen bs + 1

/-- libc `strchr`: offset of the first occurrence of `ch` in the C string at
the start of the list (the terminator included), `none` for `NULL`. -/
def strchr : List Nat → Nat → Option Nat
  | [], _ => none
  | b :: bs, ch =>
    if b = ch then some 0
    else if b = 0 then none
    else (strchr bs ch).map (fun k => k + 1)

/-- libc `strcmp`: the difference of the first two differing bytes, `0` when
both C strings are equal. -/
def strcmp : List Nat → List Nat → Int
  | [], [] => 0
  | [], b :: _ => 0 - (b : Int)
  | a :: _, [] => (a : Int)
  | a :: as, b :: bs =>
    if a = b then (if a = 0 then 0 else strcmp as bs) else (a : Int) - (b : Int)

/-! ## Events -/

/-- Memory-mapped registers used by the program. -/
inductive Reg
  | ctrl_reset
  | timer1_en
  | timer1_ev_enable
  | timer1_ev_pending
  | timer1_load
  | timer1_reload
  | timer1_update_value
  | timer1_value
  | leds_out
  | sound_generator_ch1_period
  | sound_generator_ch1_amplitude
  | sound_generator_ch4_period
  | sound_generator_ch4_amplitude
  deriving DecidableEq, Repr

/-- External demo routines (`extern void donut(void)` and friends). -/
inductive Ext
  | donut
  | helloc
  | hellocpp
  deriving DecidableEq, Repr

/-- One observable action of the program. -/
inductive Event
  /-- one call of `printf`/`puts`/`fputs` writing these bytes to `stdout` -/
  | out (bytes : List Nat)
  /-- a register write `<reg>_write(v)` -/
  | csrWrite (r : Reg) (v : Nat)
  /-- a register read `<reg>_read()` returning `v` -/
  | csrRead (r : Reg) (v : Nat)
  /-- a 32-bit load from address `addr` returning `v` -/
  | memRead (addr : Nat) (v : Nat)
  /-- the call `irq_attach(irq, timer_cmd_interrupt_handler)` -/
  | irqAttach (irq : Nat)
  /-- the call `irq_getmask()` returning `v` -/
  | irqGetmask (v : Nat)
  /-- the call `irq_setmask(v)` -/
  | irqSetmask (v : Nat)
  /-- the call `busy_wait(ms)` -/
  | busyWait (ms : Nat)
  /-- a call of an external routine -/
  | ext (f : Ext)
  deriving DecidableEq, Repr

/-- The byte stream that a list of events leaves on `stdout`. -/
def stdoutOf : List Event → List Nat
  | [] => []
  | Event.out bs :: es => bs ++ stdoutOf es
  | _ :: es => stdoutOf es

/-! ## `readstr` -/

/-- The `static` variables of `readstr`. -/
structure Reader where
  /-- the array `static char s[64]` -/
  s : List Nat
  /-- the cursor `static int ptr` -/
  ptr : Int
  deriving DecidableEq, Repr

/-- Program start: statics are zero-initialised, `ptr = 0`. -/
def Reader.init : Reader := ⟨List.replicate 64 0, 0⟩

/-- The store `s[i] = v`. A store outside the array is outside the model and
leaves `s` as it is (`readstr_inv` shows that none happens from `Reader.init`). -/
def bufSet (s : List Nat) (i : Int) (v : Nat) : List Nat :=
  if 0 ≤ i ∧ i < s.length then s.set i.toNat v else s

/-- Conversion of an `int` to `size_t` (32 bits), as done by the comparison
`ptr >= (sizeof(s) - 1)`. -/
def toSizeT (i : Int) : Int := i % 4294967296

/-- What one call of `readstr` does. -/
structure ReadResult where
  /-- the statics after the call -/
  st : Reader
  /-- the calls of `fputs`, in order -/
  out : List Event
  /-- `true` when the call returns `s`, `false` when it returns `NULL` -/
  returned : Bool
  deriving DecidableEq, Repr

/-- One call of `readstr`. `inp` is `none` when `readchar_nonblock()` is false
and `some c` when it is true and `getchar()` gives `c`. -/
def readstr (inp : Option Nat) (st : Reader) : ReadResult :=
  match inp with
  | none => ⟨st, [], false⟩
  | some c =>
    if c = 0x7f ∨ c = 0x08 then
      if st.ptr > 0 then
        ⟨⟨st.s, st.ptr - 1⟩, [Event.out [0x08, 0x20, 0x08]], false⟩
      else ⟨st, [], false⟩
    else if c = 0x07 then ⟨st, [], false⟩
    else if c = 0x0d ∨ c = 0x0a then
      ⟨⟨bufSet st.s st.ptr 0, 0⟩, [Event.out [0x0a]], true⟩
    else if toSizeT st.ptr ≥ 63 then ⟨st, [], false⟩
    else ⟨⟨bufSet st.s st.ptr c, st.ptr + 1⟩, [Event.out (cstr [c, 0])], false⟩

/-- A line handed out by `readstr`. -/
structure Line where
  /-- the accumulated characters: `s[0 .. ptr)` at the moment of submission -/
  acc : List Nat
  /-- the C string at the returned pointer -/
  str : List Nat
  deriving DecidableEq, Repr

/-- The result of feeding a sequence of bytes, one per call of `readstr`. -/
structure Run where
  /-- the statics after the last call -/
  st : Reader
  /-- all output events, in order -/
  out : List Event
  /-- the lines returned, in order -/
  lines : List Line
  deriving DecidableEq, Repr

/-- Feed the bytes `cs` to `readstr`, one per call, starting from `st`. -/
def feed (st : Reader) : List Nat → Run
  | [] => ⟨st, [], []⟩
  | c :: cs =>
    let r := readstr (some c) st
    let rest := feed r.st cs
    ⟨rest.st, r.out ++ rest.out,
      (if r.returned then [⟨r.st.s.take st.ptr.toNat, cstr r.st.s⟩] else []) ++ rest.lines⟩

/-- An ordinary character: one that `readstr` sends to the `default` branch. -/
def Ordinary (c : Nat) : Prop := c ≠ 0x7f ∧ c ≠ 0x08 ∧ c ≠ 0x07 ∧ c ≠ 0x0d ∧ c ≠ 0x0a

instance : DecidablePred Ordinary := fun c => by unfold Ordinary; infer_instance

/-- The echo of an ordinary character: what `fputs(c, stdout)` writes for the
two-byte array `c = {x, 0}`. -/
def echo (x : Nat) : Event := Event.out (cstr [x, 0])

/-- The invariant of the statics of `readstr`: `s` has its 64 bytes and `ptr`
is an index that leaves room for the terminator. -/
def Reader.Inv (st : Reader) : Prop := st.s.length = 64 ∧ 0 ≤ st.ptr ∧ st.ptr ≤ 63

/-! ## `get_token` -/

/-- What `get_token(&str)` does to the memory holding the line. -/
structure Token where
  /-- the memory after the call (a found space is overwritten by NUL) -/
  mem : List Nat
  /-- the new value of `*str`: offset of the remainder -/
  rest : Nat
  /-- the returned pointer `d`: offset of the token -/
  tok : Nat
  deriving DecidableEq, Repr

/-- The function `get_token`; `str` is the offset `*str` into `mem`. -/
def get_token (mem : List Nat) (str : Nat) : Token :=
  match strchr (mem.drop str) 0x20 with
  | none => ⟨mem, str + strlen (mem.drop str), str⟩
  | some k => ⟨mem.set (str + k) 0, str + k + 1, str⟩

/-- The command token as the caller reads it: the C string at `d`. -/
def Token.token (t : Token) : List Nat := cstrAt t.mem t.tok

/-- The remainder as the caller would read it: the C string at `*str`. -/
def Token.remainder (t : Token) : List Nat := cstrAt t.mem t.rest

/-! ## Build configuration and environment -/

/-- Compile-time configuration: which `#ifdef` blocks are present, and the
constants of `generated/csr.h` and of the compiler that the program uses. -/
structure Config where
  /-- whether `CSR_LEDS_BASE` is defined -/
  leds : Bool
  /-- whether `CSR_SOUND_GENERATOR_BASE` is defined -/
  sound : Bool
  /-- whether `CSR_TIMER0_BASE` is defined -/
  timer : Bool
  /-- whether `WITH_CXX` is defined -/
  cxx : Bool
  /-- the constant `TIMER1_INTERRUPT` -/
  timer1Interrupt : Nat
  /-- the constant `CONFIG_CLOCK_FREQUENCY` -/
  clockFrequency : Nat
  /-- the constant `CSR_SOUND_GENERATOR_MIDI_LOOKUP_BASE` -/
  midiLookupBase : Nat
  /-- the bytes of `__DATE__` -/
  date : List Nat
  /-- the bytes of `__TIME__` -/
  time : List Nat
  deriving DecidableEq, Repr

/-- What the hardware answers to reads. -/
structure Env where
  /-- value returned by the `k`-th call of `timer1_value_read()` in a run of
  `timer_cmd` -/
  timerValue : Nat → Nat
  /-- the 32-bit word stored at an address -/
  mem32 : Nat → Nat

/-- The prompt string. -/
def promptBytes : List Nat := B "\x1b[92;1mlitex-demo-app\x1b[0m> "

/-- The function `prompt`. -/
def prompt : List Event := [Event.out promptBytes]

/-- What `puts(t)` writes: the string and a newline. -/
def puts (t : List Nat) : Event := Event.out (t ++ [0x0a])

/-- The function `help`. -/
def help (cfg : Config) : List Event :=
  [puts (B "\nLiteX minimal demo app built " ++ cfg.date ++ B " " ++ cfg.time ++ B "\n"),
   puts (B "Available commands:"),
   puts (B "help               - Show this command"),
   puts (B "reboot             - Reboot CPU")]
  ++ (if cfg.leds then [puts (B "led                - Led demo")] else [])
  ++ (if cfg.sound then [puts (B "sound              - Sound demo")] else [])
  ++ (if cfg.timer then [puts (B "timer              - Timer demo")] else [])
  ++ [puts (B "donut              - Spinning Donut demo"),
      puts (B "helloc             - Hello C")]
  ++ (if cfg.cxx then [puts (B "hellocpp           - Hello C++")] else [])

/-- The function `reboot_cmd`. -/
def reboot_cmd : List Event := [Event.csrWrite Reg.ctrl_reset 1]

/-- The loop `for (i = i0; i < i0 + n; i++) body(i)`: `n` iterations left. -/
def forLoop (body : Nat → List Event) : Nat → Nat → List Event
  | _, 0 => []
  | i, n + 1 => body i ++ forLoop body (i + 1) n

/-- Value of a 32-bit register read into an `int`. -/
def toInt32 (v : Nat) : Int :=
  if v % 4294967296 < 2147483648 then (v % 4294967296 : Nat) else (v % 4294967296 : Nat) - 4294967296

/-- Conversion of an `int` to `unsigned int` or `uint32_t`. -/
def toUInt32 (i : Int) : Nat := (i % 4294967296).toNat

/-- The text that `printf("%d", v)` writes. -/
def fmtInt (v : Int) : List Nat := B (toString v)

/-- Body of the sample loop of `timer_cmd`, iteration `i`. -/
def timer_sample (env : Env) (i : Nat) : List Event :=
  [Event.csrWrite Reg.timer1_update_value 1,
   Event.csrRead Reg.timer1_value (env.timerValue i),
   Event.out (B "Value: " ++ fmtInt (toInt32 (env.timerValue i)) ++ B "\n"),
   Event.busyWait 100]

/-- The value `mask | (1 << TIMER1_INTERRUPT)` as an `unsigned int`. -/
def maskSet (cfg : Config) (mask : Nat) : Nat :=
  (mask ||| (1 <<< cfg.timer1Interrupt)) % 4294967296

/-- The value `mask & ~(1 << TIMER1_INTERRUPT)` as an `unsigned int`. -/
def maskClear (cfg : Config) (mask : Nat) : Nat :=
  mask &&& (4294967295 - (1 <<< cfg.timer1Interrupt) % 4294967296)

/-- The function `timer_cmd`, run without an interrupt being taken. `mask` is
the CPU interrupt mask at entry; the result is the events and the mask at exit. -/
def timer_cmd (cfg : Config) (env : Env) (mask : Nat) : List Event × Nat :=
  let m1 := maskSet cfg mask
  let m2 := maskClear cfg m1
  ([Event.out (B "Timer demo...\n"),
    Event.csrWrite Reg.timer1_en 0,
    Event.irqAttach cfg.timer1Interrupt,
    Event.irqGetmask mask,
    Event.irqSetmask m1,
    Event.csrWrite Reg.timer1_ev_enable 1,
    Event.csrWrite Reg.timer1_load 0,
    Event.csrWrite Reg.timer1_reload (cfg.clockFrequency / 10),
    Event.csrWrite Reg.timer1_en 1]
   ++ forLoop (timer_sample env) 0 40
   ++ [Event.irqGetmask m1, Event.irqSetmask m2], m2)

/-- The function `get_midi_note_period`: the load and the value. -/
def get_midi_note_period (cfg : Config) (env : Env) (note : Nat) : Event × Nat :=
  let addr := cfg.midiLookupBase + (note <<< 2)
  (Event.memRead addr (env.mem32 addr), env.mem32 addr % 4294967296)

/-- The function `sound_cmd`. -/
def sound_cmd (cfg : Config) (env : Env) : List Event :=
  [Event.out (B "Sound demo...\n"), Event.out (B "Pure tone...\n")]
  ++ forLoop (fun i =>
      [(get_midi_note_period cfg env 57).1,
       Event.csrWrite Reg.sound_generator_ch1_period (get_midi_note_period cfg env 57).2,
       Event.csrWrite Reg.sound_generator_ch1_amplitude ((i + 1) * 4 - 1),
       Event.busyWait 200,
       Event.csrWrite Reg.sound_generator_ch1_amplitude 0,
       Event.busyWait 200]) 0 4
  ++ [Event.out (B "Noise (low)...\n")]
  ++ forLoop (fun _ =>
      [Event.csrWrite Reg.sound_generator_ch4_period 512,
       Event.csrWrite Reg.sound_generator_ch4_amplitude 15,
       Event.busyWait 50,
       Event.csrWrite Reg.sound_generator_ch4_amplitude 0,
       Event.busyWait 350]) 0 4
  ++ [Event.out (B "Noise (high)...\n")]
  ++ forLoop (fun _ =>
      [Event.csrWrite Reg.sound_generator_ch4_period 128,
       Event.csrWrite Reg.sound_generator_ch4_amplitude 15,
       Event.busyWait 50,
       Event.csrWrite Reg.sound_generator_ch4_amplitude 0,
       Event.busyWait 350]) 0 4

/-- The function `led_cmd`. -/
def led_cmd : List Event :=
  [Event.out (B "Led demo...\n"), Event.out (B "Counter mode...\n")]
  ++ forLoop (fun i => [Event.csrWrite Reg.leds_out i, Event.busyWait 100]) 0 32
  ++ [Event.out (B "Shift mode...\n")]
  ++ forLoop (fun i => [Event.csrWrite Reg.leds_out (1 <<< i), Event.busyWait 200]) 0 4
  ++ forLoop (fun i => [Event.csrWrite Reg.leds_out (1 <<< (3 - i)), Event.busyWait 200]) 0 4
  ++ [Event.out (B "Dance mode...\n")]
  ++ forLoop (fun _ =>
      [Event.csrWrite Reg.leds_out 0x55, Event.busyWait 200,
       Event.csrWrite Reg.leds_out 0xaa, Event.busyWait 200]) 0 4

/-- The function `donut_cmd`. -/
def donut_cmd : List Event := [Event.out (B "Donut demo...\n"), Event.ext Ext.donut]

/-- The function `helloc_cmd`. -/
def helloc_cmd : List Event := [Event.out (B "Hello C demo...\n"), Event.ext Ext.helloc]

/-- The function `hellocpp_cmd`. -/
def hellocpp_cmd : List Event := [Event.out (B "Hello C++ demo...\n"), Event.ext Ext.hellocpp]

/-! ## `console_service` -/

/-- The command handlers. -/
inductive Cmd
  | help
  | reboot
  | led
  | sound
  | timer
  | donut
  | helloc
  | hellocpp
  deriving DecidableEq, Repr

/-- The name a handler is registered under in `console_service`. -/
def Cmd.name : Cmd → List Nat
  | Cmd.help => B "help"
  | Cmd.reboot => B "reboot"
  | Cmd.led => B "led"
  | Cmd.sound => B "sound"
  | Cmd.timer => B "timer"
  | Cmd.donut => B "donut"
  | Cmd.helloc => B "helloc"
  | Cmd.hellocpp => B "hellocpp"

/-- Whether the branch of a handler is compiled into `console_service`. -/
def Cmd.compiledIn (cfg : Config) : Cmd → Bool
  | Cmd.led => cfg.leds
  | Cmd.sound => cfg.sound
  | Cmd.timer => cfg.timer
  | Cmd.hellocpp => cfg.cxx
  | _ => true

/-- A string literal as it lies in memory: its bytes and the terminator. -/
def lit (t : String) : List Nat := B t ++ [0]

/-- The `if`/`else if` chain of `console_service`: the handler whose branch is
taken for the token stored at the start of `tok`, if any. -/
def select (cfg : Config) (tok : List Nat) : Option Cmd :=
  if strcmp tok (lit "help") = 0 then some Cmd.help
  else if strcmp tok (lit "reboot") = 0 then some Cmd.reboot
  else if cfg.leds ∧ strcmp tok (lit "led") = 0 then some Cmd.led
  else if cfg.sound ∧ strcmp tok (lit "sound") = 0 then some Cmd.sound
  else if cfg.timer ∧ strcmp tok (lit "timer") = 0 then some Cmd.timer
  else if strcmp tok (lit "donut") = 0 then some Cmd.donut
  else if strcmp tok (lit "helloc") = 0 then some Cmd.helloc
  else if cfg.cxx ∧ strcmp tok (lit "hellocpp") = 0 then some Cmd.hellocpp
  else none

/-- The handler function called by a branch: its events and the CPU interrupt
mask after it. -/
def Cmd.handler (cfg : Config) (env : Env) (mask : Nat) : Cmd → List Event × Nat
  | Cmd.help => (Litex.help cfg, mask)
  | Cmd.reboot => (reboot_cmd, mask)
  | Cmd.led => (led_cmd, mask)
  | Cmd.sound => (sound_cmd cfg env, mask)
  | Cmd.timer => timer_cmd cfg env mask
  | Cmd.donut => (donut_cmd, mask)
  | Cmd.helloc => (helloc_cmd, mask)
  | Cmd.hellocpp => (hellocpp_cmd, mask)

/-- The body of a branch: the `timer` branch prints `BLAH` before the call. -/
def Cmd.branch (cfg : Config) (env : Env) (mask : Nat) (c : Cmd) : List Event × Nat :=
  match c with
  | Cmd.timer =>
    (Event.out (B "BLAH") :: (Cmd.handler cfg env mask c).1, (Cmd.handler cfg env mask c).2)
  | _ => Cmd.handler cfg env mask c

/-- State of the program between calls of `console_service`. -/
structure Sys where
  /-- the statics of `readstr` -/
  reader : Reader
  /-- the CPU interrupt mask -/
  irqMask : Nat
  deriving DecidableEq, Repr

/-- What one call of `console_service` does. -/
structure Service where
  /-- the state after the call -/
  sys : Sys
  /-- the events of the call, in order -/
  events : List Event
  /-- the handler whose branch was taken, if any -/
  invoked : Option Cmd
  deriving DecidableEq, Repr

/-- One call of `console_service`. -/
def console_service (cfg : Config) (env : Env) (inp : Option Nat) (sys : Sys) : Service :=
  let r := readstr inp sys.reader
  if r.returned = false then ⟨⟨r.st, sys.irqMask⟩, r.out, none⟩
  else
    let t := get_token r.st.s 0
    match select cfg (t.mem.drop t.tok) with
    | some c =>
      ⟨⟨⟨t.mem, r.st.ptr⟩, (Cmd.branch cfg env sys.irqMask c).2⟩,
        r.out ++ (Cmd.branch cfg env sys.irqMask c).1 ++ prompt, some c⟩
    | none => ⟨⟨⟨t.mem, r.st.ptr⟩, sys.irqMask⟩, r.out ++ prompt, none⟩

/-- The main loop fed a finite sequence of polls: the final state and all
events, in order. -/
def serve (cfg : Config) (env : Env) (sys : Sys) : List (Option Nat) → Sys × List Event
  | [] => (sys, [])
  | i :: is =>
    let r := console_service cfg env i sys
    ((serve cfg env r.sys is).1, r.events ++ (serve cfg env r.sys is).2)

/-- The handlers invoked by the main loop over a sequence of polls, in order. -/
def invocations (cfg : Config) (env : Env) (sys : Sys) : List (Option Nat) → List Cmd
  | [] => []
  | i :: is =>
    let r := console_service cfg env i sys
    r.invoked.toList ++ invocations cfg env r.sys is

/-- Whether an event writes a peripheral register. -/
def Event.isCsrWrite : Event → Bool
  | Event.csrWrite _ _ => true
  | _ => false

/-- Whether an event is a read of the timer value register. -/
def Event.isValueRead : Event → Bool
  | Event.csrRead Reg.timer1_value _ => true
  | _ => false

/-- Whether an event is a write to `stdout` that begins with the byte `b`. -/
def Event.outStartsWith (b : Nat) : Event → Bool
  | Event.out (x :: _) => x == b
  | _ => false

/-- Whether an event is the write of 1 to the timer update-value register. -/
def Event.isUpdateWrite : Event → Bool
  | Event.csrWrite Reg.timer1_update_value _ => true
  | _ => false

/-- An example build: every peripheral present, `TIMER1_INTERRUPT = 2`, a
100 MHz clock. -/
def exampleConfig : Config :=
  ⟨true, true, true, true, 2, 100000000, 0x82005000, B "Jan  1 2024", B "00:00:00"⟩

/-- An example build without the optional peripherals and without C++. -/
def minimalConfig : Config :=
  ⟨false, false, false, false, 2, 100000000, 0x82005000, B "Jan  1 2024", B "00:00:00"⟩

/-- An example environment: the timer counts down by 1000 per sample, the
MIDI table holds 440 everywhere. -/
def exampleEnv : Env := ⟨fun k => 10000000 - 1000 * k, fun _ => 440⟩

/-- The event of `prompt`: the one call of `printf` with the prompt string. -/
def promptEvent : Event := Event.out promptBytes

/-- The events of the branch taken by `console_service`, none when no branch
is taken. -/
def branchEvents (cfg : Config) (env : Env) (mask : Nat) : Option Cmd → List Event
  | some c => (Cmd.branch cfg env mask c).1
  | none => []

/-! ## Lists and C strings -/

theorem take_set_self (s : List Nat) (n v : Nat) : (s.set n v).take n = s.take n := by
  induction s generalizing n with
  | nil => simp
  | cons a s ih =>
    cases n with
    | zero => simp
    | succ n => simp [ih]

theorem take_succ_set (s : List Nat) (n v : Nat) (h : n < s.length) :
    (s.set n v).take (n + 1) = s.take n ++ [v] := by
  induction s generalizing n with
  | nil => simp at h
  | cons a s ih =>
    cases n with
    | zero => simp
    | succ n =>
      simp only [List.length_cons, Nat.add_lt_add_iff_right] at h
      simp [ih n h]

theorem set_eq_take_cons_drop (s : List Nat) (n v : Nat) (h : n < s.length) :
    s.set n v = s.take n ++ v :: s.drop (n + 1) := by
  induction s generalizing n with
  | nil => simp at h
  | cons a s ih =>
    cases n with
    | zero => simp
    | succ n =>
      simp only [List.length_cons, Nat.add_lt_add_iff_right] at h
      simp [ih n h]

theorem cstr_nil : cstr [] = [] := rfl

theorem cstr_cons (b : Nat) (bs : List Nat) :
    cstr (b :: bs) = if b = 0 then [] else b :: cstr bs := by
  by_cases h : b = 0 <;> simp [cstr, List.takeWhile, h]

theorem cstr_append_zero (a r : List Nat) : cstr (a ++ 0 :: r) = cstr a := by
  induction a with
  | nil => simp [cstr_cons, cstr_nil]
  | cons b a ih =>
    simp only [List.cons_append, cstr_cons, ih]

theorem cstr_length_le (a : List Nat) : (cstr a).length ≤ a.length := by
  induction a with
  | nil => simp [cstr_nil]
  | cons b a ih =>
    rw [cstr_cons]
    split
    · simp
    · simp only [List.length_cons]; omega

theorem cstr_ne_zero (a : List Nat) : ∀ x ∈ cstr a, x ≠ 0 := by
  induction a with
  | nil => simp [cstr_nil]
  | cons b a ih =>
    rw [cstr_cons]
    split
    · simp
    · intro x hx
      rcases List.mem_cons.1 hx with h | h
      · subst h; assumption
      · exact ih x h

theorem cstr_eq_self (a : List Nat) (h : ∀ x ∈ a, x ≠ 0) : cstr a = a := by
  induction a with
  | nil => rfl
  | cons b a ih =>
    rw [cstr_cons, if_neg (h b (List.mem_cons_self b a)),
      ih (fun x hx => h x (List.mem_cons_of_mem b hx))]

theorem cstr_set_zero (s : List Nat) (n : Nat) (h : n < s.length) :
    cstr (s.set n 0) = cstr (s.take n) := by
  rw [set_eq_take_cons_drop s n 0 h, cstr_append_zero]

/-! ## The line reader -/

theorem bufSet_length (s : List Nat) (i : Int) (v : Nat) : (bufSet s i v).length = s.length := by
  unfold bufSet
  split <;> simp

theorem bufSet_of_inv (st : Reader) (h : st.Inv) (v : Nat) :
    bufSet st.s st.ptr v = st.s.set st.ptr.toNat v := by
  obtain ⟨h1, h2, h3⟩ := h
  unfold bufSet
  rw [if_pos]
  constructor
  · exact h2
  · rw [h1]; omega

theorem init_inv : Reader.init.Inv := by
  refine ⟨by simp [Reader.init], by simp [Reader.init], by simp [Reader.init]⟩

theorem readstr_inv (inp : Option Nat) (st : Reader) (h : st.Inv) : (readstr inp st).st.Inv := by
  obtain ⟨h1, h2, h3⟩ := h
  unfold readstr
  cases inp with
  | none => exact ⟨h1, h2, h3⟩
  | some c =>
    simp only
    split_ifs with a b d e f
    · exact ⟨h1, by simp only; omega, by simp only; omega⟩
    · exact ⟨h1, h2, h3⟩
    · exact ⟨h1, h2, h3⟩
    · exact ⟨by simp [bufSet_length, h1], by simp, by simp⟩
    · exact ⟨h1, h2, h3⟩
    · refine ⟨by simp [bufSet_length, h1], by simp only; omega, ?_⟩
      simp only [toSizeT, ge_iff_le, not_le] at f
      simp only
      omega

theorem readstr_returned (c : Nat) (st : Reader) (h : (readstr (some c) st).returned = true) :
    (readstr (some c) st).st = ⟨bufSet st.s st.ptr 0, 0⟩ := by
  unfold readstr at h ⊢
  simp only at h ⊢
  split_ifs at h ⊢
  simp_all

theorem feed_inv (cs : List Nat) (st : Reader) (h : st.Inv) : (feed st cs).st.Inv := by
  induction cs generalizing st with
  | nil => exact h
  | cons c cs ih => exact ih _ (readstr_inv (some c) st h)

theorem readstr_ordinary (c : Nat) (st : Reader) (hc : Ordinary c) (h : toSizeT st.ptr < 63) :
    readstr (some c) st = ⟨⟨bufSet st.s st.ptr c, st.ptr + 1⟩, [echo c], false⟩ := by
  obtain ⟨h1, h2, h3, h4, h5⟩ := hc
  unfold readstr echo
  simp only
  rw [if_neg (by omega), if_neg h3, if_neg (by omega), if_neg (by omega)]

theorem readstr_full (c : Nat) (st : Reader) (hc : Ordinary c) (h : toSizeT st.ptr ≥ 63) :
    readstr (some c) st = ⟨st, [], false⟩ := by
  obtain ⟨h1, h2, h3, h4, h5⟩ := hc
  unfold readstr
  simp only
  rw [if_neg (by omega), if_neg h3, if_neg (by omega), if_pos h]

theorem readstr_newline (c : Nat) (st : Reader) (hc : c = 0x0d ∨ c = 0x0a) :
    readstr (some c) st = ⟨⟨bufSet st.s st.ptr 0, 0⟩, [Event.out [0x0a]], true⟩ := by
  unfold readstr
  simp only
  rw [if_neg (by omega), if_neg (by omega), if_pos hc]

theorem readstr_erase (c : Nat) (st : Reader) (hc : c = 0x08 ∨ c = 0x7f) (h : 0 < st.ptr) :
    readstr (some c) st = ⟨⟨st.s, st.ptr - 1⟩, [Event.out [0x08, 0x20, 0x08]], false⟩ := by
  unfold readstr
  simp only
  rw [if_pos (by omega), if_pos (by omega)]

theorem readstr_erase_zero (c : Nat) (st : Reader) (hc : c = 0x08 ∨ c = 0x7f) (h : st.ptr ≤ 0) :
    readstr (some c) st = ⟨st, [], false⟩ := by
  unfold readstr
  simp only
  rw [if_pos (by omega), if_neg (by omega)]

theorem feed_cons (st : Reader) (c : Nat) (cs : List Nat) :
    feed st (c :: cs) =
      ⟨(feed (readstr (some c) st).st cs).st,
       (readstr (some c) st).out ++ (feed (readstr (some c) st).st cs).out,
       (if (readstr (some c) st).returned then
          [⟨(readstr (some c) st).st.s.take st.ptr.toNat, cstr (readstr (some c) st).st.s⟩]
        else []) ++ (feed (readstr (some c) st).st cs).lines⟩ := rfl

theorem feed_append (st : Reader) (a b : List Nat) :
    feed st (a ++ b) =
      ⟨(feed (feed st a).st b).st, (feed st a).out ++ (feed (feed st a).st b).out,
       (feed st a).lines ++ (feed (feed st a).st b).lines⟩ := by
  induction a generalizing st with
  | nil => simp [feed]
  | cons c a ih =>
    simp only [List.cons_append, feed_cons, ih, List.append_assoc]

/-- Feeding ordinary characters that fit: they are appended, echoed, and no
line is returned. -/
theorem feed_fits (l : List Nat) (st : Reader) (n : Nat) (hs : st.s.length = 64)
    (hp : st.ptr = n) (hn : n + l.length ≤ 63) (hl : ∀ c ∈ l, Ordinary c) :
    (feed st l).st.ptr = (n + l.length : Nat) ∧
    (feed st l).st.s.length = 64 ∧
    (feed st l).st.s.take (n + l.length) = st.s.take n ++ l ∧
    (feed st l).out = l.map echo ∧
    (feed st l).lines = [] := by
  induction l generalizing st n with
  | nil => simp [feed, hp, hs]
  | cons c l ih =>
    have hc : Ordinary c := hl c (List.mem_cons_self c l)
    simp only [List.length_cons] at hn
    have hlt : toSizeT st.ptr < 63 := by simp only [toSizeT]; omega
    have hset : bufSet st.s st.ptr c = st.s.set n c := by
      rw [bufSet_of_inv st ⟨hs, by omega, by omega⟩, hp]; rfl
    obtain ⟨i1, i2, i3, i4, i5⟩ := ih ⟨st.s.set n c, st.ptr + 1⟩ (n + 1) (by simp [hs])
      (by simp only [hp]; omega) (by omega) (fun x hx => hl x (List.mem_cons_of_mem c hx))
    rw [feed_cons, readstr_ordinary c st hc hlt, hset]
    simp only [List.length_cons]
    have e : n + (l.length + 1) = n + 1 + l.length := by omega
    refine ⟨by rw [i1]; congr 1; omega, i2, ?_, by simp [i4], by simp [i5]⟩
    rw [e, i3, take_succ_set st.s n c (by omega)]
    simp

/-- Feeding ordinary characters to a full buffer: nothing happens. -/
theorem feed_full (l : List Nat) (st : Reader) (hp : st.ptr = 63) (hl : ∀ c ∈ l, Ordinary c) :
    feed st l = ⟨st, [], []⟩ := by
  induction l with
  | nil => rfl
  | cons c l ih =>
    rw [feed_cons, readstr_full c st (hl c (List.mem_cons_self c l))
      (by simp only [toSizeT, hp]; decide)]
    simp [ih (fun x hx => hl x (List.mem_cons_of_mem c hx))]

theorem stdoutOf_append (a b : List Event) : stdoutOf (a ++ b) = stdoutOf a ++ stdoutOf b := by
  induction a with
  | nil => rfl
  | cons e a ih => cases e <;> simp [stdoutOf, ih]

theorem stdoutOf_echo (l : List Nat) : stdoutOf (l.map echo) = l.filter (fun c => c ≠ 0) := by
  induction l with
  | nil => rfl
  | cons c l ih =>
    by_cases h : c = 0
    · simp [echo, stdoutOf, cstr_cons, ih, h]
    · simp [echo, stdoutOf, cstr_cons, cstr_nil, ih, h]

theorem filter_ne_zero_eq (l : List Nat) (h : ∀ c ∈ l, c ≠ 0) :
    l.filter (fun c => c ≠ 0) = l := by
  induction l with
  | nil => rfl
  | cons c l ih =>
    have hc := h c (List.mem_cons_self c l)
    simp only [List.filter, hc, ne_eq, not_false_eq_true, decide_True]
    rw [ih (fun x hx => h x (List.mem_cons_of_mem c hx))]

/-- Lines returned from a state that satisfies the invariant. -/
theorem feed_lines_bound (cs : List Nat) (st : Reader) (h : st.Inv) :
    ∀ ln ∈ (feed st cs).lines, ln.acc.length ≤ 63 ∧ ln.str = cstr ln.acc := by
  induction cs generalizing st with
  | nil => simp [feed]
  | cons c cs ih =>
    intro ln hln
    rw [feed_cons] at hln
    rcases List.mem_append.1 hln with h1 | h1
    · by_cases hr : (readstr (some c) st).returned = true
      · rw [if_pos hr, List.mem_singleton] at h1
        rw [readstr_returned c st hr, bufSet_of_inv st h] at h1
        obtain ⟨hs, h0, h63⟩ := h
        have hlt : st.ptr.toNat < st.s.length := by rw [hs]; omega
        subst h1
        simp only
        rw [take_set_self, cstr_set_zero _ _ hlt]
        refine ⟨?_, rfl⟩
        rw [List.length_take]
        omega
      · rw [if_neg hr] at h1
        simp at h1
    · exact ih _ (readstr_inv (some c) st h) ln h1

/-- When no NUL byte is fed, the accumulated characters are never NUL. -/
theorem feed_lines_nonzero (cs : List Nat) (st : Reader) (h : st.Inv)
    (hz : ∀ x ∈ st.s.take st.ptr.toNat, x ≠ 0) (hcs : ∀ c ∈ cs, c ≠ 0) :
    ∀ ln ∈ (feed st cs).lines, ∀ x ∈ ln.acc, x ≠ 0 := by
  induction cs generalizing st with
  | nil => simp [feed]
  | cons c cs ih =>
    intro ln hln
    rw [feed_cons] at hln
    have hc : c ≠ 0 := hcs c (List.mem_cons_self c cs)
    rcases List.mem_append.1 hln with h1 | h1
    · by_cases hr : (readstr (some c) st).returned = true
      · rw [if_pos hr, List.mem_singleton] at h1
        rw [readstr_returned c st hr, bufSet_of_inv st h] at h1
        subst h1
        simp only
        rw [take_set_self]
        exact hz
      · rw [if_neg hr] at h1
        simp at h1
    · refine ih _ (readstr_inv (some c) st h) ?_
        (fun x hx => hcs x (List.mem_cons_of_mem c hx)) ln h1
      obtain ⟨hs, h0, h63⟩ := h
      unfold readstr
      simp only
      split_ifs with a b d e f
      · intro x hx
        refine hz x ((List.take_subset_take_left st.s ?_) hx)
        simp only
        omega
      · exact hz
      · exact hz
      · simp
      · exact hz
      · simp only [toSizeT, ge_iff_le, not_le] at f
        rw [bufSet_of_inv st ⟨hs, h0, h63⟩]
        have e : (st.ptr + 1).toNat = st.ptr.toNat + 1 := by omega
        simp only [e]
        rw [take_succ_set st.s _ c (by rw [hs]; omega)]
        intro x hx
        rcases List.mem_append.1 hx with h2 | h2
        · exact hz x h2
        · rw [List.mem_singleton] at h2
          rw [h2]; exact hc

/-! ## The tokenizer -/

theorem strlen_cons (b : Nat) (bs : List Nat) :
    strlen (b :: bs) = if b = 0 then 0 else strlen bs + 1 := rfl

theorem strchr_cons (b : Nat) (bs : List Nat) (ch : Nat) :
    strchr (b :: bs) ch =
      if b = ch then some 0 else if b = 0 then none
      else (strchr bs ch).map (fun k => k + 1) := rfl

theorem strlen_line (l rest : List Nat) (h : ∀ x ∈ l, x ≠ 0) :
    strlen (l ++ 0 :: rest) = l.length := by
  induction l with
  | nil => simp [strlen_cons]
  | cons b l ih =>
    have hb := h b (List.mem_cons_self b l)
    rw [List.cons_append, strlen_cons, if_neg hb,
      ih (fun x hx => h x (List.mem_cons_of_mem b hx)), List.length_cons]

theorem strchr_absent (l rest : List Nat) (ch : Nat) (hch : ch ≠ 0) (h : ∀ x ∈ l, x ≠ 0)
    (hno : ch ∉ l) : strchr (l ++ 0 :: rest) ch = none := by
  induction l with
  | nil =>
    rw [List.nil_append, strchr_cons, if_neg (fun e => hch e.symm), if_pos rfl]
  | cons b l ih =>
    have hb := h b (List.mem_cons_self b l)
    have hne : b ≠ ch := fun e => hno (e ▸ List.mem_cons_self b l)
    rw [List.cons_append, strchr_cons, if_neg hne, if_neg hb,
      ih (fun x hx => h x (List.mem_cons_of_mem b hx))
      (fun hx => hno (List.mem_cons_of_mem b hx))]
    rfl

theorem strchr_found (tk rm : List Nat) (ch : Nat) (h : ∀ x ∈ tk, x ≠ 0) (hno : ch ∉ tk) :
    strchr (tk ++ ch :: rm) ch = some tk.length := by
  induction tk with
  | nil => simp [strchr_cons]
  | cons b tk ih =>
    have hb := h b (List.mem_cons_self b tk)
    have hne : b ≠ ch := fun e => hno (e ▸ List.mem_cons_self b tk)
    rw [List.cons_append, strchr_cons, if_neg hne, if_neg hb,
      ih (fun x hx => h x (List.mem_cons_of_mem b hx))
      (fun hx => hno (List.mem_cons_of_mem b hx))]
    rfl

theorem set_length_append (a b : List Nat) (x v : Nat) :
    (a ++ x :: b).set a.length v = a ++ v :: b := by
  induction a with
  | nil => rfl
  | cons c a ih => simp [ih]

theorem split_at_first (l : List Nat) (ch : Nat) (h : ch ∈ l) :
    l = l.takeWhile (fun b => b ≠ ch) ++ ch :: (l.dropWhile (fun b => b ≠ ch)).tail := by
  induction l with
  | nil => simp at h
  | cons b l ih =>
    by_cases hb : b = ch
    · simp [List.takeWhile, List.dropWhile, hb]
    · have hl : ch ∈ l := by
        rcases List.mem_cons.1 h with e | e
        · exact absurd e.symm hb
        · exact e
      simp only [List.takeWhile, List.dropWhile, hb, ne_eq, not_false_eq_true, decide_True,
        List.cons_append, List.cons.injEq, true_and]
      exact ih hl

theorem not_mem_takeWhile_ne (l : List Nat) (ch : Nat) :
    ch ∉ l.takeWhile (fun b => b ≠ ch) := by
  induction l with
  | nil => simp
  | cons b l ih =>
    by_cases hb : b = ch
    · simp [List.takeWhile, hb]
    · simp only [List.takeWhile, hb, ne_eq, not_false_eq_true, decide_True, List.mem_cons,
        not_or]
      exact ⟨fun e => hb e.symm, ih⟩

/-- The effect of `get_token` on a line that contains a space: `pre` is the
memory before the line, `tk` the characters before the first space, `rm` the
characters after it. -/
theorem get_token_space (pre tk rm rest : List Nat) (htk : ∀ x ∈ tk, x ≠ 0)
    (hrm : ∀ x ∈ rm, x ≠ 0) (hsp : 0x20 ∉ tk) :
    get_token (pre ++ (tk ++ 0x20 :: rm) ++ 0 :: rest) pre.length =
        ⟨pre ++ (tk ++ 0 :: rm) ++ 0 :: rest, pre.length + tk.length + 1, pre.length⟩ ∧
    (get_token (pre ++ (tk ++ 0x20 :: rm) ++ 0 :: rest) pre.length).token = tk ∧
    (get_token (pre ++ (tk ++ 0x20 :: rm) ++ 0 :: rest) pre.length).remainder = rm := by
  have hdrop : (pre ++ (tk ++ 0x20 :: rm) ++ 0 :: rest).drop pre.length
      = tk ++ 0x20 :: (rm ++ 0 :: rest) := by
    simp [List.append_assoc]
  have hset : (pre ++ (tk ++ 0x20 :: rm) ++ 0 :: rest).set (pre.length + tk.length) 0
      = pre ++ (tk ++ 0 :: rm) ++ 0 :: rest := by
    have := set_length_append (pre ++ tk) (rm ++ 0 :: rest) 0x20 0
    simp only [List.length_append, List.append_assoc, List.cons_append] at this ⊢
    exact this
  have hg : get_token (pre ++ (tk ++ 0x20 :: rm) ++ 0 :: rest) pre.length =
      ⟨pre ++ (tk ++ 0 :: rm) ++ 0 :: rest, pre.length + tk.length + 1, pre.length⟩ := by
    unfold get_token
    rw [hdrop, strchr_found tk _ 0x20 htk hsp]
    simp only [hset]
  refine ⟨hg, ?_, ?_⟩
  · rw [hg]
    simp only [Token.token, cstrAt]
    have : (pre ++ (tk ++ 0 :: rm) ++ 0 :: rest).drop pre.length
        = tk ++ 0 :: (rm ++ 0 :: rest) := by
      simp [List.append_assoc]
    rw [this, cstr_append_zero, cstr_eq_self tk htk]
  · rw [hg]
    simp only [Token.remainder, cstrAt]
    have : (pre ++ (tk ++ 0 :: rm) ++ 0 :: rest).drop (pre.length + tk.length + 1)
        = rm ++ 0 :: rest := by
      have e : pre ++ (tk ++ 0 :: rm) ++ 0 :: rest = (pre ++ tk ++ [0]) ++ (rm ++ 0 :: rest) := by
        simp [List.append_assoc]
      have e2 : pre.length + tk.length + 1 = (pre ++ tk ++ [0]).length := by
        simp only [List.length_append, List.length_singleton]
      rw [e, e2, List.drop_left]
    rw [this, cstr_append_zero, cstr_eq_self rm hrm]

/-- The effect of `get_token` on a line without a space. -/
theorem get_token_no_space (pre l rest : List Nat) (hl : ∀ x ∈ l, x ≠ 0) (hsp : 0x20 ∉ l) :
    get_token (pre ++ l ++ 0 :: rest) pre.length =
        ⟨pre ++ l ++ 0 :: rest, pre.length + l.length, pre.length⟩ ∧
    (get_token (pre ++ l ++ 0 :: rest) pre.length).token = l ∧
    (get_token (pre ++ l ++ 0 :: rest) pre.length).remainder = [] := by
  have hdrop : (pre ++ l ++ 0 :: rest).drop pre.length = l ++ 0 :: rest := by
    simp [List.append_assoc]
  have hg : get_token (pre ++ l ++ 0 :: rest) pre.length =
      ⟨pre ++ l ++ 0 :: rest, pre.length + l.length, pre.length⟩ := by
    unfold get_token
    rw [hdrop, strchr_absent l rest 0x20 (by decide) hl hsp, strlen_line l rest hl]
  refine ⟨hg, ?_, ?_⟩
  · rw [hg]
    simp only [Token.token, cstrAt]
    rw [hdrop, cstr_append_zero, cstr_eq_self l hl]
  · rw [hg]
    simp only [Token.remainder, cstrAt]
    have : (pre ++ l ++ 0 :: rest).drop (pre.length + l.length) = 0 :: rest := by
      have e2 : pre.length + l.length = (pre ++ l).length := by simp
      rw [e2, List.drop_left]
    rw [this, cstr_cons, if_pos rfl]

/-! ## The dispatcher -/

theorem strcmp_lit (name : List Nat) (hname : ∀ x ∈ name, x ≠ 0) (tok : List Nat) :
    strcmp tok (name ++ [0]) = 0 ↔ cstr tok = name := by
  induction name generalizing tok with
  | nil =>
    cases tok with
    | nil => simp [strcmp, cstr_nil]
    | cons a as =>
      by_cases ha : a = 0
      · simp [strcmp, cstr_cons, ha]
      · simp only [List.nil_append, strcmp, ha, if_false, cstr_cons]
        constructor
        · intro h; omega
        · intro h; simp at h
  | cons n ns ih =>
    have hn : n ≠ 0 := hname n (List.mem_cons_self n ns)
    have hns : ∀ x ∈ ns, x ≠ 0 := fun x hx => hname x (List.mem_cons_of_mem n hx)
    cases tok with
    | nil =>
      simp only [List.cons_append, strcmp, cstr_nil]
      constructor
      · intro h; omega
      · intro h; simp at h
    | cons a as =>
      by_cases han : a = n
      · subst han
        simp only [List.cons_append, strcmp, if_true, if_neg hn, cstr_cons, List.cons.injEq,
          true_and]
        exact ih hns as
      · simp only [List.cons_append, strcmp, if_neg han, cstr_cons]
        constructor
        · intro h; omega
        · intro h
          by_cases ha : a = 0
          · rw [if_pos ha] at h; simp at h
          · rw [if_neg ha] at h
            exact absurd (List.cons.inj h).1 han

theorem name_help : B "help" = [104, 101, 108, 112] := rfl
theorem name_reboot : B "reboot" = [114, 101, 98, 111, 111, 116] := rfl
theorem name_led : B "led" = [108, 101, 100] := rfl
theorem name_sound : B "sound" = [115, 111, 117, 110, 100] := rfl
theorem name_timer : B "timer" = [116, 105, 109, 101, 114] := rfl
theorem name_donut : B "donut" = [100, 111, 110, 117, 116] := rfl
theorem name_helloc : B "helloc" = [104, 101, 108, 108, 111, 99] := rfl
theorem name_hellocpp : B "hellocpp" = [104, 101, 108, 108, 111, 99, 112, 112] := rfl

theorem strcmp_name (t : String) (h : ∀ x ∈ B t, x ≠ 0) (tok : List Nat) :
    strcmp tok (lit t) = 0 ↔ cstr tok = B t :=
  strcmp_lit (B t) h tok

/-- The `if`/`else if` chain written over the C string of the token. -/
theorem select_eq (cfg : Config) (tok : List Nat) :
    select cfg tok =
      if cstr tok = B "help" then some Cmd.help
      else if cstr tok = B "reboot" then some Cmd.reboot
      else if cfg.leds ∧ cstr tok = B "led" then some Cmd.led
      else if cfg.sound ∧ cstr tok = B "sound" then some Cmd.sound
      else if cfg.timer ∧ cstr tok = B "timer" then some Cmd.timer
      else if cstr tok = B "donut" then some Cmd.donut
      else if cstr tok = B "helloc" then some Cmd.helloc
      else if cfg.cxx ∧ cstr tok = B "hellocpp" then some Cmd.hellocpp
      else none := by
  unfold select
  simp only [strcmp_name "help" (by decide), strcmp_name "reboot" (by decide),
    strcmp_name "led" (by decide), strcmp_name "sound" (by decide),
    strcmp_name "timer" (by decide), strcmp_name "donut" (by decide),
    strcmp_name "helloc" (by decide), strcmp_name "hellocpp" (by decide)]

/-- The chain takes the branch of `c` exactly when that branch is compiled in
and the token is the name of `c`. -/
theorem select_eq_some (cfg : Config) (tok : List Nat) (c : Cmd) :
    select cfg tok = some c ↔ (c.compiledIn cfg = true ∧ cstr tok = c.name) := by
  rw [select_eq]
  generalize cstr tok = t
  simp only [name_help, name_reboot, name_led, name_sound, name_timer, name_donut,
    name_helloc, name_hellocpp, Cmd.name, Cmd.compiledIn]
  split_ifs with h1 h2 h3 h4 h5 h6 h7 h8 <;> cases c <;> simp_all

theorem select_eq_none (cfg : Config) (tok : List Nat) :
    select cfg tok = none ↔ ∀ c : Cmd, ¬ (c.compiledIn cfg = true ∧ cstr tok = c.name) := by
  constructor
  · intro h c hc
    rw [(select_eq_some cfg tok c).2 hc] at h
    exact Option.noConfusion h
  · intro h
    cases hs : select cfg tok with
    | none => rfl
    | some c => exact absurd ((select_eq_some cfg tok c).1 hs) (h c)

theorem readstr_returned_out (inp : Option Nat) (st : Reader)
    (h : (readstr inp st).returned = true) : (readstr inp st).out = [Event.out [0x0a]] := by
  unfold readstr at h ⊢
  cases inp with
  | none => simp at h
  | some c =>
    simp only at h ⊢
    split_ifs at h ⊢
    all_goals simp_all

theorem readstr_out_no_prompt (inp : Option Nat) (st : Reader) :
    promptEvent ∉ (readstr inp st).out := by
  unfold readstr
  cases inp with
  | none => simp
  | some c =>
    simp only
    split_ifs
    · simp [promptEvent, promptBytes, B]
    · simp
    · simp
    · simp [promptEvent, promptBytes, B]
    · simp
    · by_cases hc : c = 0
      · simp [promptEvent, promptBytes, B, cstr_cons, hc]
      · simp [promptEvent, promptBytes, B, cstr_cons, cstr_nil, hc]

set_option maxRecDepth 100000 in
theorem branch_no_escape (cfg : Config) (env : Env) (mask : Nat) (c : Cmd) :
    (Cmd.branch cfg env mask c).1.all (fun e => !(e.outStartsWith 0x1b)) = true := by
  obtain ⟨l, s, t, x, _, _, _, _, _⟩ := cfg
  cases c
  · cases l <;> cases s <;> cases t <;> cases x <;> rfl
  all_goals rfl

theorem branch_no_prompt (cfg : Config) (env : Env) (mask : Nat) (c : Cmd) :
    promptEvent ∉ (Cmd.branch cfg env mask c).1 := by
  intro h
  have h1 := List.all_eq_true.1 (branch_no_escape cfg env mask c) promptEvent h
  revert h1
  decide

theorem branchEvents_no_prompt (cfg : Config) (env : Env) (mask : Nat) (o : Option Cmd) :
    promptEvent ∉ branchEvents cfg env mask o := by
  cases o with
  | none => simp [branchEvents]
  | some c => exact branch_no_prompt cfg env mask c

/-- The shape of a call of `console_service` that gets a line. -/
theorem console_service_line (cfg : Config) (env : Env) (inp : Option Nat) (sys : Sys)
    (h : (readstr inp sys.reader).returned = true) :
    (console_service cfg env inp sys).invoked
        = select cfg ((get_token (readstr inp sys.reader).st.s 0).mem.drop
            (get_token (readstr inp sys.reader).st.s 0).tok) ∧
    (console_service cfg env inp sys).events
        = [Event.out [0x0a]]
          ++ branchEvents cfg env sys.irqMask (console_service cfg env inp sys).invoked
          ++ [promptEvent] := by
  have ho := readstr_returned_out inp sys.reader h
  unfold console_service
  simp only [h, Bool.true_eq_false, if_false, ho]
  cases hs : select cfg ((get_token (readstr inp sys.reader).st.s 0).mem.drop
      (get_token (readstr inp sys.reader).st.s 0).tok) with
  | none => simp [branchEvents, prompt, promptEvent]
  | some c => simp [branchEvents, prompt, promptEvent]

/-- The shape of a call of `console_service` that gets no line. -/
theorem console_service_no_line (cfg : Config) (env : Env) (inp : Option Nat) (sys : Sys)
    (h : (readstr inp sys.reader).returned = false) :
    console_service cfg env inp sys
      = ⟨⟨(readstr inp sys.reader).st, sys.irqMask⟩, (readstr inp sys.reader).out, none⟩ := by
  unfold console_service
  simp only [h, if_true]

theorem forLoop_eq_flatMap (body : Nat → List Event) (i n : Nat) :
    forLoop body i n = (List.range' i n).flatMap body := by
  induction n generalizing i with
  | zero => rfl
  | succ n ih => simp [forLoop, ih, List.range'_succ]

theorem maskSet_bit (cfg : Config) (mask : Nat) (ht : cfg.timer1Interrupt < 32) :
    (maskSet cfg mask).testBit cfg.timer1Interrupt = true ∧
    ∀ j, j < 32 → j ≠ cfg.timer1Interrupt → (maskSet cfg mask).testBit j = mask.testBit j := by
  have e : (4294967296 : Nat) = 2 ^ 32 := by norm_num
  unfold maskSet
  rw [e, Nat.one_shiftLeft]
  constructor
  · rw [Nat.testBit_mod_two_pow, Nat.testBit_or, Nat.testBit_two_pow_self]
    simp [ht]
  · intro j hj hne
    rw [Nat.testBit_mod_two_pow, Nat.testBit_or, Nat.testBit_two_pow]
    simp [hj, Ne.symm hne]

theorem maskClear_bit (cfg : Config) (mask : Nat) (ht : cfg.timer1Interrupt < 32) :
    (maskClear cfg mask).testBit cfg.timer1Interrupt = false ∧
    ∀ j, j < 32 → j ≠ cfg.timer1Interrupt → (maskClear cfg mask).testBit j = mask.testBit j := by
  have hlt : 2 ^ cfg.timer1Interrupt < 2 ^ 32 := Nat.pow_lt_pow_right (by norm_num) ht
  have e : 4294967295 - (1 <<< cfg.timer1Interrupt) % 4294967296
      = 2 ^ 32 - (2 ^ cfg.timer1Interrupt + 1) := by
    rw [Nat.one_shiftLeft]
    have : (4294967296 : Nat) = 2 ^ 32 := by norm_num
    rw [this, Nat.mod_eq_of_lt hlt]
    omega
  unfold maskClear
  rw [e]
  constructor
  · rw [Nat.testBit_and, Nat.testBit_two_pow_sub_succ hlt, Nat.testBit_two_pow_self]
    simp
  · intro j hj hne
    rw [Nat.testBit_and, Nat.testBit_two_pow_sub_succ hlt, Nat.testBit_two_pow]
    simp [hj, Ne.symm hne]

theorem serve_cons (cfg : Config) (env : Env) (sys : Sys) (i : Option Nat)
    (is : List (Option Nat)) :
    serve cfg env sys (i :: is) =
      ((serve cfg env (console_service cfg env i sys).sys is).1,
       (console_service cfg env i sys).events
        ++ (serve cfg env (console_service cfg env i sys).sys is).2) := rfl

theorem invocations_cons (cfg : Config) (env : Env) (sys : Sys) (i : Option Nat)
    (is : List (Option Nat)) :
    invocations cfg env sys (i :: is) =
      (console_service cfg env i sys).invoked.toList
        ++ invocations cfg env (console_service cfg env i sys).sys is := rfl

theorem serve_append (cfg : Config) (env : Env) (sys : Sys) (a b : List (Option Nat)) :
    serve cfg env sys (a ++ b) =
      ((serve cfg env (serve cfg env sys a).1 b).1,
       (serve cfg env sys a).2 ++ (serve cfg env (serve cfg env sys a).1 b).2) := by
  induction a generalizing sys with
  | nil => simp [serve]
  | cons i a ih => simp only [List.cons_append, serve_cons, ih, List.append_assoc]

theorem invocations_append (cfg : Config) (env : Env) (sys : Sys) (a b : List (Option Nat)) :
    invocations cfg env sys (a ++ b) =
      invocations cfg env sys a ++ invocations cfg env (serve cfg env sys a).1 b := by
  induction a generalizing sys with
  | nil => simp [serve, invocations]
  | cons i a ih => simp only [List.cons_append, invocations_cons, serve_cons, ih, List.append_assoc]

/-- While `readstr` returns no line, the main loop only runs the line reader. -/
theorem serve_no_line (cfg : Config) (env : Env) (cs : List Nat) (st : Reader) (mask : Nat)
    (h : (feed st cs).lines = []) :
    serve cfg env ⟨st, mask⟩ (cs.map some) = (⟨(feed st cs).st, mask⟩, (feed st cs).out) ∧
    invocations cfg env ⟨st, mask⟩ (cs.map some) = [] := by
  induction cs generalizing st with
  | nil => exact ⟨rfl, rfl⟩
  | cons c cs ih =>
    rw [feed_cons] at h
    simp only [List.append_eq_nil] at h
    have hr : (readstr (some c) st).returned = false := by
      by_contra hne
      rw [Bool.not_eq_false] at hne
      rw [if_pos hne] at h
      simp at h
    obtain ⟨i1, i2⟩ := ih (readstr (some c) st).st h.2
    have hc := console_service_no_line cfg env (some c) ⟨st, mask⟩ hr
    simp only at hc
    rw [List.map_cons, serve_cons, invocations_cons, hc]
    simp only [i1, i2, feed_cons]
    exact ⟨trivial, rfl⟩

/-- Typing a line whose first token is the name of a compiled-in command and
then a newline, from a state in which the typed characters give no line. -/
theorem serve_command (cfg : Config) (env : Env) (cs : List Nat) (st : Reader) (mask : Nat)
    (c : Cmd) (hcs : (feed st cs).lines = []) (hc : c.compiledIn cfg = true)
    (htok : (get_token (readstr (some 0x0a) (feed st cs).st).st.s 0).token = c.name) :
    (serve cfg env ⟨st, mask⟩ ((cs ++ [0x0a]).map some)).2
      = (feed st cs).out ++ [Event.out [0x0a]] ++ (Cmd.branch cfg env mask c).1 ++ [promptEvent] ∧
    invocations cfg env ⟨st, mask⟩ ((cs ++ [0x0a]).map some) = [c] := by
  obtain ⟨s1, s2⟩ := serve_no_line cfg env cs st mask hcs
  have hret : (readstr (some 0x0a) (feed st cs).st).returned = true := by
    rw [readstr_newline 0x0a _ (Or.inr rfl)]
  obtain ⟨l1, l2⟩ := console_service_line cfg env (some 0x0a) ⟨(feed st cs).st, mask⟩ hret
  have hsel : (console_service cfg env (some 0x0a) ⟨(feed st cs).st, mask⟩).invoked = some c := by
    rw [l1]
    exact (select_eq_some cfg _ c).2 ⟨hc, htok⟩
  rw [hsel] at l2
  rw [List.map_append, serve_append, invocations_append, s1, s2]
  simp only [List.map_cons, List.map_nil, serve_cons, invocations_cons, hsel, l2, serve,
    invocations, branchEvents]
  simp

/-- Every branch of `console_service` performs at least one event. -/
theorem branch_length_pos (cfg : Config) (env : Env) (mask : Nat) (c : Cmd) :
    0 < (Cmd.branch cfg env mask c).1.length := by
  cases c <;>
    simp [Cmd.branch, Cmd.handler, help, reboot_cmd, led_cmd, sound_cmd, timer_cmd,
      donut_cmd, helloc_cmd, hellocpp_cmd]

/-- The compiled-in command names, spelled out. -/
theorem compiled_name_iff (cfg : Config) (t : List Nat) :
    (∃ c : Cmd, c.compiledIn cfg = true ∧ t = c.name) ↔
      (t = B "help" ∨ t = B "reboot" ∨ (cfg.leds = true ∧ t = B "led") ∨
       (cfg.sound = true ∧ t = B "sound") ∨ (cfg.timer = true ∧ t = B "timer") ∨
       t = B "donut" ∨ t = B "helloc" ∨ (cfg.cxx = true ∧ t = B "hellocpp")) := by
  constructor
  · rintro ⟨c, hc, ht⟩
    cases c
    · exact Or.inl ht
    · exact Or.inr (Or.inl ht)
    · exact Or.inr (Or.inr (Or.inl ⟨hc, ht⟩))
    · exact Or.inr (Or.inr (Or.inr (Or.inl ⟨hc, ht⟩)))
    · exact Or.inr (Or.inr (Or.inr (Or.inr (Or.inl ⟨hc, ht⟩))))
    · exact Or.inr (Or.inr (Or.inr (Or.inr (Or.inr (Or.inl ht)))))
    · exact Or.inr (Or.inr (Or.inr (Or.inr (Or.inr (Or.inr (Or.inl ht))))))
    · exact Or.inr (Or.inr (Or.inr (Or.inr (Or.inr (Or.inr (Or.inr ⟨hc, ht⟩))))))
  · rintro (ht | ht | ⟨hc, ht⟩ | ⟨hc, ht⟩ | ⟨hc, ht⟩ | ht | ht | ⟨hc, ht⟩)
    · exact ⟨Cmd.help, rfl, ht⟩
    · exact ⟨Cmd.reboot, rfl, ht⟩
    · exact ⟨Cmd.led, hc, ht⟩
    · exact ⟨Cmd.sound, hc, ht⟩
    · exact ⟨Cmd.timer, hc, ht⟩
    · exact ⟨Cmd.donut, rfl, ht⟩
    · exact ⟨Cmd.helloc, rfl, ht⟩
    · exact ⟨Cmd.hellocpp, hc, ht⟩

theorem bufSet_bufSet (s : List Nat) (i : Int) (x v : Nat) :
    bufSet (bufSet s i x) i v = bufSet s i v := by
  unfold bufSet
  by_cases h : 0 ≤ i ∧ i < s.length
  · simp only [h, and_self, if_true, List.length_set, List.set_set]
  · simp only [h, if_false]

theorem take_bufSet_self (s : List Nat) (i : Int) (v : Nat) :
    (bufSet s i v).take i.toNat = s.take i.toNat := by
  unfold bufSet
  split
  · exact take_set_self s _ v
  · rfl

/-! ## Claims about the line reader -/

/-- C1, as stated, fails: after the input bytes `a`, NUL, newline the line
returned by `readstr` has a NUL among its accumulated characters. -/
theorem C1_counterexample :
    ¬ (∀ ln ∈ (feed Reader.init [0x61, 0x00, 0x0a]).lines,
        ln.acc.length ≤ 63 ∧ ∀ x ∈ ln.acc, x ≠ 0) := by
  decide

/-- C1, amended: for every sequence of input bytes fed one per call to
`readstr` from the initial state, every returned line has at most 63
accumulated characters, the C string at the returned pointer is the accumulated
characters up to their first NUL (so it is NUL-free and at most 63 long), and
when no input byte is NUL the accumulated characters are NUL-free and are the
returned C string. -/
theorem C1_returned_line (cs : List Nat) (ln : Line)
    (h : ln ∈ (feed Reader.init cs).lines) :
    ln.acc.length ≤ 63 ∧ ln.str = cstr ln.acc ∧ ln.str.length ≤ 63 ∧
    (∀ x ∈ ln.str, x ≠ 0) ∧
    ((∀ c ∈ cs, c ≠ 0) → (∀ x ∈ ln.acc, x ≠ 0) ∧ ln.str = ln.acc) := by
  obtain ⟨h1, h2⟩ := feed_lines_bound cs Reader.init init_inv ln h
  refine ⟨h1, h2, ?_, ?_, ?_⟩
  · rw [h2]
    exact le_trans (cstr_length_le _) h1
  · rw [h2]
    exact cstr_ne_zero _
  · intro hcs
    have h3 := feed_lines_nonzero cs Reader.init init_inv (by simp [Reader.init]) hcs ln h
    exact ⟨h3, by rw [h2, cstr_eq_self _ h3]⟩

/-- The amended C1 at the input `hi`, newline. -/
theorem C1_returned_line_witness :
    (∀ x ∈ (Line.mk [0x68, 0x69] [0x68, 0x69]).acc, x ≠ 0) ∧
    (Line.mk [0x68, 0x69] [0x68, 0x69]).str = (Line.mk [0x68, 0x69] [0x68, 0x69]).acc :=
  (C1_returned_line [0x68, 0x69, 0x0a] ⟨[0x68, 0x69], [0x68, 0x69]⟩ (by decide)).2.2.2.2
    (by decide)

/-- C3, as stated, fails: the bell character is neither CR nor LF, yet feeding
it to an empty buffer does not accumulate it (the cursor stays 0) and does not
echo it; and a NUL byte, which is accumulated, is not echoed either. -/
theorem C3_counterexample :
    ¬ ((feed Reader.init [0x07]).st.ptr = 1 ∧
       (feed Reader.init [0x07]).st.s.take 1 = [0x07] ∧
       stdoutOf (feed Reader.init [0x07]).out = [0x07]) ∧
    ¬ (stdoutOf (feed Reader.init [0x00]).out = [0x00]) := by
  decide

/-- C3, amended: for all sequences of ordinary characters (no CR, LF,
backspace, delete or bell) shorter than 63, feeding them one per call to
`readstr` from an empty buffer accumulates them verbatim (the buffer holds
exactly that sequence up to the cursor, the cursor is its length, no line is
returned) and echoes each non-NUL one: the output stream is the sequence
without its NUL bytes, hence exactly the sequence when it has none. -/
theorem C3_accumulate_and_echo (cs : List Nat) (st : Reader)
    (hs : st.s.length = 64) (hp : st.ptr = 0)
    (hlen : cs.length < 63) (hcs : ∀ c ∈ cs, Ordinary c) :
    (feed st cs).st.ptr = cs.length ∧
    (feed st cs).st.s.take cs.length = cs ∧
    (feed st cs).lines = [] ∧
    stdoutOf (feed st cs).out = cs.filter (fun c => c ≠ 0) ∧
    ((∀ c ∈ cs, c ≠ 0) → stdoutOf (feed st cs).out = cs) := by
  obtain ⟨h1, _, h3, h4, h5⟩ := feed_fits cs st 0 hs (by simp [hp]) (by omega) hcs
  simp only [Nat.zero_add, List.take_zero, List.nil_append] at h1 h3
  refine ⟨h1, h3, h5, ?_, ?_⟩
  · rw [h4, stdoutOf_echo]
  · intro hz
    rw [h4, stdoutOf_echo, filter_ne_zero_eq cs hz]

/-- The amended C3 at the input `led`. -/
theorem C3_accumulate_and_echo_witness :
    stdoutOf (feed Reader.init [0x6c, 0x65, 0x64]).out = [0x6c, 0x65, 0x64] :=
  (C3_accumulate_and_echo [0x6c, 0x65, 0x64] Reader.init (by decide) (by decide) (by decide)
    (by decide)).2.2.2.2 (by decide)

/-- C7: at cursor 0 a backspace or delete changes nothing (cursor, buffer,
output) and returns no line; and the cursor is never negative, whatever
sequence of bytes is fed from the initial state. -/
theorem C7_backspace_at_zero :
    (∀ (st : Reader) (c : Nat), st.ptr = 0 → (c = 0x08 ∨ c = 0x7f) →
      readstr (some c) st = ⟨st, [], false⟩) ∧
    (∀ cs : List Nat, 0 ≤ (feed Reader.init cs).st.ptr) := by
  constructor
  · intro st c hp hc
    exact readstr_erase_zero c st hc (by omega)
  · intro cs
    exact (feed_inv cs Reader.init init_inv).2.1

/-- C7 at the initial state and a backspace. -/
theorem C7_backspace_at_zero_witness :
    readstr (some 0x08) Reader.init = ⟨Reader.init, [], false⟩ :=
  C7_backspace_at_zero.1 Reader.init 0x08 (by decide) (by decide)

/-- C2, as stated, fails: NUL is none of the excluded characters, yet of 64
NUL bytes followed by a newline none is echoed (only the newline is written)
and the C string returned is empty, not the first 63 characters. -/
theorem C2_counterexample :
    ¬ (stdoutOf (feed Reader.init (List.replicate 64 0 ++ [0x0a])).out
          = (List.replicate 64 0).take 63 ++ [0x0a] ∧
       (feed Reader.init (List.replicate 64 0 ++ [0x0a])).lines.map Line.str
          = [(List.replicate 64 0).take 63]) := by
  decide

/-- C2, amended: for every sequence of more than 63 ordinary characters fed to
`readstr` from an empty buffer and followed by a newline, the characters
accumulated in the returned line are exactly the first 63 of them, the returned
C string is those 63 up to their first NUL, exactly the non-NUL ones among
those 63 are echoed (all 63, and the C string is the 63, when none is NUL), the
excess is dropped, the cursor is 0 afterwards, and a next line typed after the
newline is returned on its own. -/
theorem C2_overlong_line (l : List Nat) (st : Reader)
    (hs : st.s.length = 64) (hp : st.ptr = 0)
    (hn : 63 < l.length) (hl : ∀ c ∈ l, Ordinary c) :
    (feed st (l ++ [0x0a])).lines = [⟨l.take 63, cstr (l.take 63)⟩] ∧
    (feed st (l ++ [0x0a])).out = (l.take 63).map echo ++ [Event.out [0x0a]] ∧
    stdoutOf (feed st (l ++ [0x0a])).out = (l.take 63).filter (fun c => c ≠ 0) ++ [0x0a] ∧
    (feed st (l ++ [0x0a])).st.ptr = 0 ∧
    ((∀ c ∈ l.take 63, c ≠ 0) →
      (feed st (l ++ [0x0a])).lines = [⟨l.take 63, l.take 63⟩] ∧
      stdoutOf (feed st (l ++ [0x0a])).out = l.take 63 ++ [0x0a]) ∧
    (∀ m : List Nat, (∀ c ∈ m, Ordinary c) → m.length ≤ 63 →
      (feed st (l ++ [0x0a] ++ m ++ [0x0a])).lines.map Line.acc = [l.take 63, m]) := by
  have hsplit : l = l.take 63 ++ l.drop 63 := (List.take_append_drop 63 l).symm
  have hlen : (l.take 63).length = 63 := by rw [List.length_take]; omega
  have hA := feed_fits (l.take 63) st 0 hs (by simp [hp]) (by omega)
    (fun c hc => hl c (List.mem_of_mem_take hc))
  rw [hlen] at hA
  simp only [Nat.zero_add, List.take_zero, List.nil_append] at hA
  obtain ⟨a1, a2, a3, a4, a5⟩ := hA
  have hB := feed_full (l.drop 63) (feed st (l.take 63)).st (by rw [a1]; rfl)
    (fun c hc => hl c (List.mem_of_mem_drop hc))
  have hfeed : feed st l = ⟨(feed st (l.take 63)).st, (l.take 63).map echo, []⟩ := by
    conv_lhs => rw [hsplit]
    rw [feed_append, hB, a4, a5]
    simp
  have hinv : (feed st (l.take 63)).st.Inv := ⟨a2, by rw [a1]; decide, by rw [a1]; decide⟩
  have hnl : feed (feed st (l.take 63)).st [0x0a] =
      ⟨⟨(feed st (l.take 63)).st.s.set 63 0, 0⟩, [Event.out [0x0a]],
        [⟨l.take 63, cstr (l.take 63)⟩]⟩ := by
    rw [feed_cons, readstr_newline 0x0a _ (Or.inr rfl), bufSet_of_inv _ hinv, a1]
    simp only [feed, List.append_nil, if_true]
    have e : ((63 : Nat) : Int).toNat = 63 := rfl
    rw [e, take_set_self, a3, cstr_set_zero _ _ (by rw [a2]; decide), a3]
  have hall : feed st (l ++ [0x0a]) =
      ⟨⟨(feed st (l.take 63)).st.s.set 63 0, 0⟩, (l.take 63).map echo ++ [Event.out [0x0a]],
        [⟨l.take 63, cstr (l.take 63)⟩]⟩ := by
    rw [feed_append, hfeed]
    simp only [hnl, List.nil_append]
  have hout : stdoutOf ((l.take 63).map echo ++ [Event.out [0x0a]])
      = (l.take 63).filter (fun c => c ≠ 0) ++ [0x0a] := by
    rw [stdoutOf_append, stdoutOf_echo]
    rfl
  refine ⟨by rw [hall], by rw [hall], by rw [hall, hout], by rw [hall], ?_, ?_⟩
  · intro hz
    rw [hall, hout, cstr_eq_self _ hz, filter_ne_zero_eq _ hz]
    exact ⟨rfl, rfl⟩
  · intro m hm hmlen
    have hC := feed_fits m ⟨(feed st (l.take 63)).st.s.set 63 0, 0⟩ 0
      (by simp [a2]) rfl (by omega) hm
    simp only [Nat.zero_add, List.take_zero, List.nil_append] at hC
    obtain ⟨c1, c2, c3, c4, c5⟩ := hC
    have hinv2 : (feed ⟨(feed st (l.take 63)).st.s.set 63 0, 0⟩ m).st.Inv :=
      ⟨c2, by rw [c1]; omega, by rw [c1]; omega⟩
    rw [List.append_assoc, feed_append, hall, feed_append]
    simp only [c5, List.nil_append, List.map_cons, List.map_append]
    rw [feed_cons, readstr_newline 0x0a _ (Or.inr rfl), bufSet_of_inv _ hinv2, c1]
    simp only [feed, List.append_nil, if_true, List.map_cons, List.map_nil, Int.toNat_ofNat]
    rw [take_set_self, c3]
    rfl

/-- The amended C2 at 70 letters `A` followed by a newline. -/
theorem C2_overlong_line_witness :
    (feed Reader.init (List.replicate 70 0x41 ++ [0x0a])).lines
      = [⟨(List.replicate 70 0x41).take 63, (List.replicate 70 0x41).take 63⟩] ∧
    stdoutOf (feed Reader.init (List.replicate 70 0x41 ++ [0x0a])).out
      = (List.replicate 70 0x41).take 63 ++ [0x0a] :=
  (C2_overlong_line (List.replicate 70 0x41) Reader.init (by decide) (by decide) (by decide)
    (by decide)).2.2.2.2.1 (by decide)

/-- C10: for every reader state whose cursor is below 63 (any `int` value) and
every ordinary character `x`, feeding `x` and then a backspace or delete leaves
the cursor and the characters before it unchanged, and a newline fed next gives
the same result (statics, output, line) as a newline fed to the original state.
The bound is necessary: at cursor 63 the character is dropped, the erase moves
the cursor to 62, and the line returned next has 62 accumulated characters
instead of 63. -/
theorem C10_type_then_erase :
    (∀ (st : Reader) (x bs : Nat), -2147483648 ≤ st.ptr → st.ptr < 63 → Ordinary x →
      (bs = 0x08 ∨ bs = 0x7f) →
      (feed st [x, bs]).st.ptr = st.ptr ∧
      (feed st [x, bs]).st.s.take st.ptr.toNat = st.s.take st.ptr.toNat ∧
      (feed st [x, bs, 0x0a]).st = (feed st [0x0a]).st ∧
      (feed st [x, bs, 0x0a]).lines = (feed st [0x0a]).lines) ∧
    (∀ (st : Reader) (x bs : Nat), st.s.length = 64 → st.ptr = 63 → Ordinary x →
      (bs = 0x08 ∨ bs = 0x7f) →
      (feed st [x]).st = st ∧
      (feed st [x, bs]).st.ptr = 62 ∧
      (feed st [x, bs, 0x0a]).lines.map Line.acc = [st.s.take 62] ∧
      (feed st [0x0a]).lines.map Line.acc = [st.s.take 63] ∧
      st.s.take 62 ≠ st.s.take 63) := by
  constructor
  · intro st x bs hmin hlt hx hbs
    by_cases hneg : st.ptr < 0
    · have h1 : readstr (some x) st = ⟨st, [], false⟩ :=
        readstr_full x st hx (by simp only [toSizeT]; omega)
      have h2 : readstr (some bs) st = ⟨st, [], false⟩ :=
        readstr_erase_zero bs st hbs (by omega)
      simp only [feed_cons, h1, h2, feed]
      simp
    · have h1 : readstr (some x) st = ⟨⟨bufSet st.s st.ptr x, st.ptr + 1⟩, [echo x], false⟩ :=
        readstr_ordinary x st hx (by simp only [toSizeT]; omega)
      have h2 : readstr (some bs) ⟨bufSet st.s st.ptr x, st.ptr + 1⟩ =
          ⟨⟨bufSet st.s st.ptr x, st.ptr⟩, [Event.out [0x08, 0x20, 0x08]], false⟩ := by
        rw [readstr_erase bs _ hbs (by simp only; omega)]
        simp
      have h3 : ∀ s, readstr (some 0x0a) s = ⟨⟨bufSet s.s s.ptr 0, 0⟩, [Event.out [0x0a]], true⟩ :=
        fun s => readstr_newline 0x0a s (Or.inr rfl)
      simp only [feed_cons, h1, h2, h3, feed, bufSet_bufSet, take_bufSet_self]
      simp
  · intro st x bs hs hp hx hbs
    have h1 : readstr (some x) st = ⟨st, [], false⟩ :=
      readstr_full x st hx (by simp only [toSizeT, hp]; decide)
    have h2 : readstr (some bs) st = ⟨⟨st.s, 62⟩, [Event.out [0x08, 0x20, 0x08]], false⟩ := by
      rw [readstr_erase bs _ hbs (by omega), hp]
      rfl
    have h3 : ∀ s, readstr (some 0x0a) s = ⟨⟨bufSet s.s s.ptr 0, 0⟩, [Event.out [0x0a]], true⟩ :=
      fun s => readstr_newline 0x0a s (Or.inr rfl)
    have e62 : (62 : Int).toNat = 62 := rfl
    have e63 : (63 : Int).toNat = 63 := rfl
    simp only [feed_cons, h1, h2, h3, feed, hp]
    simp only [List.nil_append, List.append_nil, if_true, List.map_cons, List.map_nil,
      Bool.false_eq_true, if_false, true_and]
    refine ⟨?_, ?_, ?_⟩
    · rw [take_bufSet_self st.s 62 0, e62]
    · rw [take_bufSet_self st.s 63 0, e63]
    · intro h
      have := congrArg List.length h
      rw [List.length_take, List.length_take, hs] at this
      omega

/-- C10 at the initial state, the letter `a` and a backspace. -/
theorem C10_type_then_erase_witness :
    (feed Reader.init [0x61, 0x08, 0x0a]).lines = (feed Reader.init [0x0a]).lines :=
  (C10_type_then_erase.1 Reader.init 0x61 0x08 (by decide) (by decide) (by decide)
    (by decide)).2.2.2

/-! ## Claims about the tokenizer -/

/-- C6: for every NUL-free line stored (with its terminator) anywhere in
memory, `get_token` splits it at the first space: with a space in the line the
token is the prefix before the first space, has no space, and token, space,
remainder make up the line; without a space the token is the whole line and the
remainder is empty. -/
theorem C6_get_token_split (pre l rest : List Nat) (hl : ∀ x ∈ l, x ≠ 0) :
    (0x20 ∈ l →
      (get_token (pre ++ l ++ 0 :: rest) pre.length).token = l.takeWhile (fun b => b ≠ 0x20) ∧
      0x20 ∉ (get_token (pre ++ l ++ 0 :: rest) pre.length).token ∧
      (get_token (pre ++ l ++ 0 :: rest) pre.length).token ++ [0x20] ++
        (get_token (pre ++ l ++ 0 :: rest) pre.length).remainder = l) ∧
    (0x20 ∉ l →
      (get_token (pre ++ l ++ 0 :: rest) pre.length).token = l ∧
      (get_token (pre ++ l ++ 0 :: rest) pre.length).remainder = []) := by
  constructor
  · intro hsp
    have hsplit := split_at_first l 0x20 hsp
    have hno := not_mem_takeWhile_ne l 0x20
    generalize l.takeWhile (fun b => b ≠ 0x20) = tk at hsplit hno ⊢
    generalize (l.dropWhile (fun b => b ≠ 0x20)).tail = rm at hsplit
    subst hsplit
    have htk : ∀ x ∈ tk, x ≠ 0 := fun x hx => hl x (List.mem_append_left _ hx)
    have hrm : ∀ x ∈ rm, x ≠ 0 :=
      fun x hx => hl x (List.mem_append_right _ (List.mem_cons_of_mem _ hx))
    obtain ⟨_, h2, h3⟩ := get_token_space pre tk rm rest htk hrm hno
    rw [h2, h3]
    exact ⟨rfl, hno, by simp⟩
  · intro hsp
    exact (get_token_no_space pre l rest hl hsp).2

/-- C6 at the line `led extra args`. -/
theorem C6_get_token_split_witness :
    (get_token ([] ++ B "led extra args" ++ 0 :: []) ([] : List Nat).length).token
        = (B "led extra args").takeWhile (fun b => b ≠ 0x20) ∧
    0x20 ∉ (get_token ([] ++ B "led extra args" ++ 0 :: []) ([] : List Nat).length).token ∧
    (get_token ([] ++ B "led extra args" ++ 0 :: []) ([] : List Nat).length).token ++ [0x20] ++
      (get_token ([] ++ B "led extra args" ++ 0 :: []) ([] : List Nat).length).remainder
        = B "led extra args" :=
  (C6_get_token_split [] (B "led extra args") [] (by decide)).1 (by decide)

/-! ## Claims about the dispatcher and the handlers -/

/-- C4: when `console_service` gets a completed line, what it does is fixed by
the first token of the line, compared byte for byte: for `help` it runs `help`,
for `reboot` `reboot_cmd`, for `led` `led_cmd`, for `sound` `sound_cmd`, for
`timer` `timer_cmd` (after printing `BLAH`), for `donut` `donut_cmd`, for
`helloc` `helloc_cmd` and for `hellocpp` `hellocpp_cmd`, the four optional ones
only in a build that has them; then it prints the prompt. The call performs
nothing but the echoed newline and the prompt (no handler, no error text) if
and only if the token is none of the compiled-in names; this is so for
`foobar`, `Help`, `hel`, `hellocp` and the empty token. The branch recorded as
taken is the one of that name. -/
theorem C4_dispatch (cfg : Config) (env : Env) (inp : Option Nat) (sys : Sys)
    (h : (readstr inp sys.reader).returned = true) :
    (∀ c : Cmd, (console_service cfg env inp sys).invoked = some c ↔
      (c.compiledIn cfg = true ∧
        (get_token (readstr inp sys.reader).st.s 0).token = c.name)) ∧
    ((get_token (readstr inp sys.reader).st.s 0).token = B "help" →
      (console_service cfg env inp sys).events
        = [Event.out [0x0a]] ++ help cfg ++ prompt) ∧
    ((get_token (readstr inp sys.reader).st.s 0).token = B "reboot" →
      (console_service cfg env inp sys).events
        = [Event.out [0x0a]] ++ reboot_cmd ++ prompt) ∧
    (cfg.leds = true → (get_token (readstr inp sys.reader).st.s 0).token = B "led" →
      (console_service cfg env inp sys).events
        = [Event.out [0x0a]] ++ led_cmd ++ prompt) ∧
    (cfg.sound = true → (get_token (readstr inp sys.reader).st.s 0).token = B "sound" →
      (console_service cfg env inp sys).events
        = [Event.out [0x0a]] ++ sound_cmd cfg env ++ prompt) ∧
    (cfg.timer = true → (get_token (readstr inp sys.reader).st.s 0).token = B "timer" →
      (console_service cfg env inp sys).events
        = [Event.out [0x0a]] ++ [Event.out (B "BLAH")]
          ++ (timer_cmd cfg env sys.irqMask).1 ++ prompt) ∧
    ((get_token (readstr inp sys.reader).st.s 0).token = B "donut" →
      (console_service cfg env inp sys).events
        = [Event.out [0x0a]] ++ donut_cmd ++ prompt) ∧
    ((get_token (readstr inp sys.reader).st.s 0).token = B "helloc" →
      (console_service cfg env inp sys).events
        = [Event.out [0x0a]] ++ helloc_cmd ++ prompt) ∧
    (cfg.cxx = true → (get_token (readstr inp sys.reader).st.s 0).token = B "hellocpp" →
      (console_service cfg env inp sys).events
        = [Event.out [0x0a]] ++ hellocpp_cmd ++ prompt) ∧
    ((console_service cfg env inp sys).events = [Event.out [0x0a]] ++ prompt ↔
      ¬ ((get_token (readstr inp sys.reader).st.s 0).token = B "help" ∨
         (get_token (readstr inp sys.reader).st.s 0).token = B "reboot" ∨
         (cfg.leds = true ∧ (get_token (readstr inp sys.reader).st.s 0).token = B "led") ∨
         (cfg.sound = true ∧ (get_token (readstr inp sys.reader).st.s 0).token = B "sound") ∨
         (cfg.timer = true ∧ (get_token (readstr inp sys.reader).st.s 0).token = B "timer") ∨
         (get_token (readstr inp sys.reader).st.s 0).token = B "donut" ∨
         (get_token (readstr inp sys.reader).st.s 0).token = B "helloc" ∨
         (cfg.cxx = true ∧
           (get_token (readstr inp sys.reader).st.s 0).token = B "hellocpp"))) ∧
    ((get_token (readstr inp sys.reader).st.s 0).token
        ∈ [B "foobar", B "Help", B "hel", B "hellocp", []] →
      (console_service cfg env inp sys).events = [Event.out [0x0a]] ++ prompt) ∧
    ((console_service cfg env inp sys).invoked = none →
      (console_service cfg env inp sys).events = [Event.out [0x0a]] ++ prompt) ∧
    (∀ c : Cmd, c.name ∉ [B "foobar", B "Help", B "hel", B "hellocp", []]) := by
  obtain ⟨h1, h2⟩ := console_service_line cfg env inp sys h
  have hsel : ∀ c : Cmd, (console_service cfg env inp sys).invoked = some c ↔
      (c.compiledIn cfg = true ∧
        (get_token (readstr inp sys.reader).st.s 0).token = c.name) := by
    intro c
    rw [h1, select_eq_some]
    rfl
  have hev : ∀ c : Cmd, c.compiledIn cfg = true →
      (get_token (readstr inp sys.reader).st.s 0).token = c.name →
      (console_service cfg env inp sys).events
        = [Event.out [0x0a]] ++ (Cmd.branch cfg env sys.irqMask c).1 ++ prompt := by
    intro c hc ht
    rw [h2, (hsel c).2 ⟨hc, ht⟩]
    rfl
  have hnone : (console_service cfg env inp sys).invoked = none →
      (console_service cfg env inp sys).events = [Event.out [0x0a]] ++ prompt := by
    intro hn
    rw [h2, hn]
    rfl
  have hiff : (console_service cfg env inp sys).events = [Event.out [0x0a]] ++ prompt ↔
      ¬ ∃ c : Cmd, c.compiledIn cfg = true ∧
        (get_token (readstr inp sys.reader).st.s 0).token = c.name := by
    constructor
    · rintro he ⟨c, hc, ht⟩
      have h3 := hev c hc ht
      rw [he] at h3
      have h4 := congrArg List.length h3
      have h5 := branch_length_pos cfg env sys.irqMask c
      simp only [List.length_append, List.length_singleton, List.length_cons, List.length_nil,
        prompt] at h4
      omega
    · intro hne
      apply hnone
      cases hi : (console_service cfg env inp sys).invoked with
      | none => rfl
      | some c => exact absurd ⟨c, (hsel c).1 hi⟩ hne
  refine ⟨hsel, ?_, ?_, ?_, ?_, ?_, ?_, ?_, ?_, ?_, ?_, hnone, ?_⟩
  · exact fun ht => hev Cmd.help rfl ht
  · exact fun ht => hev Cmd.reboot rfl ht
  · exact fun hc ht => hev Cmd.led hc ht
  · exact fun hc ht => hev Cmd.sound hc ht
  · exact fun hc ht => hev Cmd.timer hc ht
  · exact fun ht => hev Cmd.donut rfl ht
  · exact fun ht => hev Cmd.helloc rfl ht
  · exact fun hc ht => hev Cmd.hellocpp hc ht
  · rw [hiff, compiled_name_iff]
  · intro hmem
    rw [hiff]
    rintro ⟨c, _, ht⟩
    rw [ht] at hmem
    revert hmem
    cases c <;> decide
  · intro c
    cases c <;> decide

set_option maxRecDepth 100000 in
/-- C4 at the lines `reboot now` and `led` in a build without optional
commands: the first runs `reboot_cmd`, the second runs no handler. -/
theorem C4_dispatch_witness :
    (console_service minimalConfig exampleEnv (some 0x0a)
      ⟨(feed Reader.init (B "reboot now")).st, 0⟩).events
        = [Event.out [0x0a]] ++ reboot_cmd ++ prompt ∧
    (console_service minimalConfig exampleEnv (some 0x0a)
      ⟨(feed Reader.init (B "led")).st, 0⟩).events
        = [Event.out [0x0a]] ++ prompt :=
  ⟨(C4_dispatch minimalConfig exampleEnv (some 0x0a) ⟨(feed Reader.init (B "reboot now")).st, 0⟩
      (by decide)).2.2.1 (by decide),
   (C4_dispatch minimalConfig exampleEnv (some 0x0a) ⟨(feed Reader.init (B "led")).st, 0⟩
      (by decide)).2.2.2.2.2.2.2.2.2.1.2 (by decide)⟩

/-- C5: a call of `console_service` that gets a completed line, matched or
not, performs the echo of the newline, then the events of the branch taken (if
any), then the prompt, which is thus printed exactly once and last; a call that
gets no line invokes no handler and prints no prompt. Typing `help` and a
newline from the initial state gives the echo, the help text and one prompt. -/
theorem C5_prompt (cfg : Config) (env : Env) (inp : Option Nat) (sys : Sys) :
    ((readstr inp sys.reader).returned = true →
      (console_service cfg env inp sys).events
        = (readstr inp sys.reader).out
          ++ branchEvents cfg env sys.irqMask (console_service cfg env inp sys).invoked
          ++ [promptEvent] ∧
      (console_service cfg env inp sys).events.count promptEvent = 1 ∧
      (console_service cfg env inp sys).events.getLast? = some promptEvent) ∧
    ((readstr inp sys.reader).returned = false →
      (console_service cfg env inp sys).events = (readstr inp sys.reader).out ∧
      (console_service cfg env inp sys).invoked = none ∧
      (console_service cfg env inp sys).events.count promptEvent = 0) ∧
    (serve cfg env ⟨Reader.init, sys.irqMask⟩ ((B "help\n").map some)).2
      = (B "help").map echo ++ [Event.out [0x0a]] ++ help cfg ++ [promptEvent] := by
  refine ⟨?_, ?_, ?_⟩
  · intro h
    obtain ⟨_, h2⟩ := console_service_line cfg env inp sys h
    have ho := readstr_returned_out inp sys.reader h
    refine ⟨by rw [h2, ho], ?_, ?_⟩
    · rw [h2, List.count_append, List.count_append]
      have a : List.count promptEvent [Event.out [0x0a]] = 0 := by decide
      have b : List.count promptEvent
          (branchEvents cfg env sys.irqMask (console_service cfg env inp sys).invoked) = 0 :=
        List.count_eq_zero.2 (branchEvents_no_prompt _ _ _ _)
      have c : List.count promptEvent [promptEvent] = 1 := by decide
      rw [a, b, c]
    · rw [h2, List.getLast?_concat]
  · intro h
    rw [console_service_no_line cfg env inp sys h]
    exact ⟨rfl, rfl, List.count_eq_zero.2 (readstr_out_no_prompt inp sys.reader)⟩
  · have e : B "help\n" = B "help" ++ [0x0a] := by decide
    have hf : feed Reader.init (B "help")
        = ⟨(feed Reader.init (B "help")).st, (B "help").map echo, []⟩ := by decide
    have hs := (serve_command cfg env (B "help") Reader.init sys.irqMask Cmd.help
      (by decide) rfl (by decide)).1
    rw [e, hs]
    conv_lhs => rw [hf]
    rfl

set_option maxRecDepth 100000 in
/-- C5 at the unmatched line `foobar` and at a call that gets no line. -/
theorem C5_prompt_witness :
    (console_service exampleConfig exampleEnv (some 0x0a)
        ⟨(feed Reader.init (B "foobar")).st, 0⟩).events.count promptEvent = 1 ∧
    (console_service exampleConfig exampleEnv (some 0x66) ⟨Reader.init, 0⟩).invoked = none :=
  ⟨((C5_prompt exampleConfig exampleEnv (some 0x0a) ⟨(feed Reader.init (B "foobar")).st, 0⟩).1
      (by decide)).2.1,
   ((C5_prompt exampleConfig exampleEnv (some 0x66) ⟨Reader.init, 0⟩).2.1 (by decide)).2.1⟩

/-- C9: typing `reboot` and a newline, one byte per call of `console_service`
from the initial reader state, writes exactly one peripheral register over the
whole run: the reset-control register, once, with value 1; and the only
handler invoked is `reboot_cmd`. -/
theorem C9_reboot (cfg : Config) (env : Env) (mask : Nat) :
    (serve cfg env ⟨Reader.init, mask⟩ ((B "reboot\n").map some)).2.filter Event.isCsrWrite
      = [Event.csrWrite Reg.ctrl_reset 1] ∧
    invocations cfg env ⟨Reader.init, mask⟩ ((B "reboot\n").map some) = [Cmd.reboot] := by
  have e : B "reboot\n" = B "reboot" ++ [0x0a] := by decide
  have hf : (feed Reader.init (B "reboot")).out = (B "reboot").map echo := by decide
  obtain ⟨h1, h2⟩ := serve_command cfg env (B "reboot") Reader.init mask Cmd.reboot
    (by decide) rfl (by decide)
  rw [e, h1, h2, hf]
  exact ⟨rfl, rfl⟩

/-- C8: one run of `timer_cmd` with no interrupt taken is a setup part, then
40 samples, then a closing part. Each sample is the write of 1 to the
update-value register, the read of the value register, the `printf` of the
value and `busy_wait(100)`. Setup and closing part contain no read of the value
register and no write of the update-value register, so there are exactly 40
reads. The setup part contains the `irq_setmask` that sets the TIMER1 bit of
the mask read before it, and the closing part the `irq_setmask` that clears
it; both leave the other bits as they were. -/
theorem C8_timer_trace (cfg : Config) (env : Env) (mask : Nat)
    (ht : cfg.timer1Interrupt < 32) :
    ∃ setup closing : List Event,
      (timer_cmd cfg env mask).1
        = setup
          ++ (List.range 40).flatMap (fun i =>
              [Event.csrWrite Reg.timer1_update_value 1,
               Event.csrRead Reg.timer1_value (env.timerValue i),
               Event.out (B "Value: " ++ fmtInt (toInt32 (env.timerValue i)) ++ B "\n"),
               Event.busyWait 100])
          ++ closing ∧
      setup.filter Event.isValueRead = [] ∧ closing.filter Event.isValueRead = [] ∧
      setup.filter Event.isUpdateWrite = [] ∧ closing.filter Event.isUpdateWrite = [] ∧
      ((timer_cmd cfg env mask).1.filter Event.isValueRead).length = 40 ∧
      ((timer_cmd cfg env mask).1.filter Event.isUpdateWrite).length = 40 ∧
      [Event.irqGetmask mask, Event.irqSetmask (maskSet cfg mask)] <:+: setup ∧
      (maskSet cfg mask).testBit cfg.timer1Interrupt = true ∧
      (∀ j, j < 32 → j ≠ cfg.timer1Interrupt →
        (maskSet cfg mask).testBit j = mask.testBit j) ∧
      closing = [Event.irqGetmask (maskSet cfg mask),
                 Event.irqSetmask (maskClear cfg (maskSet cfg mask))] ∧
      (maskClear cfg (maskSet cfg mask)).testBit cfg.timer1Interrupt = false ∧
      (∀ j, j < 32 → j ≠ cfg.timer1Interrupt →
        (maskClear cfg (maskSet cfg mask)).testBit j = mask.testBit j) := by
  refine ⟨[Event.out (B "Timer demo...\n"),
      Event.csrWrite Reg.timer1_en 0,
      Event.irqAttach cfg.timer1Interrupt,
      Event.irqGetmask mask,
      Event.irqSetmask (maskSet cfg mask),
      Event.csrWrite Reg.timer1_ev_enable 1,
      Event.csrWrite Reg.timer1_load 0,
      Event.csrWrite Reg.timer1_reload (cfg.clockFrequency / 10),
      Event.csrWrite Reg.timer1_en 1],
    [Event.irqGetmask (maskSet cfg mask),
      Event.irqSetmask (maskClear cfg (maskSet cfg mask))], ?_, rfl, rfl, rfl, rfl, rfl, rfl,
    ?_, (maskSet_bit cfg mask ht).1, (maskSet_bit cfg mask ht).2, rfl,
    (maskClear_bit cfg _ ht).1, ?_⟩
  · unfold timer_cmd
    simp only [forLoop_eq_flatMap, List.range_eq_range']
    rfl
  · exact ⟨[Event.out (B "Timer demo...\n"), Event.csrWrite Reg.timer1_en 0,
      Event.irqAttach cfg.timer1Interrupt],
      [Event.csrWrite Reg.timer1_ev_enable 1, Event.csrWrite Reg.timer1_load 0,
        Event.csrWrite Reg.timer1_reload (cfg.clockFrequency / 10),
        Event.csrWrite Reg.timer1_en 1], rfl⟩
  · intro j hj hne
    rw [(maskClear_bit cfg _ ht).2 j hj hne, (maskSet_bit cfg mask ht).2 j hj hne]

/-- C8 at the example build and environment, mask 0 at entry. -/
theorem C8_timer_trace_witness :
    ∃ setup closing : List Event,
      (timer_cmd exampleConfig exampleEnv 0).1
        = setup
          ++ (List.range 40).flatMap (fun i =>
              [Event.csrWrite Reg.timer1_update_value 1,
               Event.csrRead Reg.timer1_value (exampleEnv.timerValue i),
               Event.out (B "Value: " ++ fmtInt (toInt32 (exampleEnv.timerValue i)) ++ B "\n"),
               Event.busyWait 100])
          ++ closing ∧
      [Event.irqGetmask 0, Event.irqSetmask (maskSet exampleConfig 0)] <:+: setup ∧
      closing = [Event.irqGetmask (maskSet exampleConfig 0),
                 Event.irqSetmask (maskClear exampleConfig (maskSet exampleConfig 0))] := by
  obtain ⟨setup, closing, h1, _, _, _, _, _, _, h2, _, _, h3, _, _⟩ :=
    C8_timer_trace exampleConfig exampleEnv 0 (by decide)
  exact ⟨setup, closing, h1, h2, h3⟩
end Litex
